import Mathlib

/-!
Verification development for `export_gibraltar_tariff.py`, a scraper that
fetches Gibraltar HM Customs tariff chapters 1..99, extracts tariff-code
records and chapter-title records from the page text, deduplicates them and
writes two CSV tables.

The Python source is shallowly embedded: strings are `List Char`, the fixed
regular expression `\b[0-9*]{10}-[0-9*]{2}-[0-9*]{2}\b` is embedded as a
sequential consumer with explicit word-boundary checks, the driver loop is a
fold over the chapter list, and the CSV writer follows the `csv` module's
default dialect (comma delimiter, minimal double-quote quoting, CRLF rows).
Character-class predicates (`\w`, `str.strip` whitespace) are modelled at the
ASCII level; the tariff pages and all claims only exercise ASCII characters
around token boundaries.
-/

/-- Character list of a string literal, used for concrete test inputs. -/
def str (s : String) : List Char := s.data

/-- Whitespace set of Python `str.strip` / `\s` (ASCII part). -/
def pyIsSpace (c : Char) : Bool :=
  c == ' ' || c == '\t' || c == '\n' || c == '\r' || c == '\x0b' || c == '\x0c'

/-- Word character of the regex metacharacter `\b` (`\w`): alphanumeric or underscore. -/
def isWordChar (c : Char) : Bool :=
  c.isAlphanum || c == '_'

/-- The character class `[0-9*]` of `CODE_PATTERN`: a decimal digit or the wildcard. -/
def digitStar (c : Char) : Bool :=
  c.isDigit || c == '*'

/-- Python `str.lstrip()` with the default whitespace set. -/
def pyLstripWS (s : List Char) : List Char := s.dropWhile pyIsSpace

/-- Python `str.rstrip()` with the default whitespace set. -/
def pyRstripWS (s : List Char) : List Char := (s.reverse.dropWhile pyIsSpace).reverse

/-- Python `str.strip()`: leading and trailing whitespace removed. -/
def pyStrip (s : List Char) : List Char := pyRstripWS (pyLstripWS s)

/-- The character set of the source's `desc.lstrip(" -–—:")` call:
space, hyphen-minus, en-dash, em-dash, colon. -/
def stripSetChars : List Char := [' ', '-', '–', '—', ':']

/-- Python `s.lstrip(cs)`: drop leading characters drawn from the set `cs`. -/
def pyLstrip (cs : List Char) (s : List Char) : List Char :=
  s.dropWhile (fun c => cs.contains c)

/-- Python `str.splitlines()` restricted to `'\n'` as the line separator,
the separator produced by `soup.get_text("\n", strip=True)`.  A trailing
newline yields no extra empty line, and the empty string has no lines. -/
def pySplitlines : List Char → List (List Char)
  | [] => []
  | c :: cs =>
    if c = '\n' then [] :: pySplitlines cs
    else
      match pySplitlines cs with
      | [] => [[c]]
      | l :: ls => (c :: l) :: ls

/-! ### The regex `CODE_PATTERN = \b[0-9*]{10}-[0-9*]{2}-[0-9*]{2}\b` -/

/-- Consume exactly `n` characters each satisfying `p` (the regex piece `[...]{n}`),
returning the remaining input on success. -/
def consumeClass (p : Char → Bool) : Nat → List Char → Option (List Char)
  | 0, s => some s
  | _ + 1, [] => none
  | n + 1, c :: s => if p c then consumeClass p n s else none

/-- Consume one literal character (the regex piece for a literal). -/
def consumeChar (c : Char) : List Char → Option (List Char)
  | [] => none
  | d :: s => if d = c then some s else none

/-- The character part of `CODE_PATTERN`: `[0-9*]{10}-[0-9*]{2}-[0-9*]{2}`,
applied at the front of the input. -/
def matchCore (s : List Char) : Option (List Char) :=
  (consumeClass digitStar 10 s).bind fun s1 =>
  (consumeChar '-' s1).bind fun s2 =>
  (consumeClass digitStar 2 s2).bind fun s3 =>
  (consumeChar '-' s3).bind fun s4 =>
  consumeClass digitStar 2 s4

/-- Whether the character at index `i` (if any) is a word character. -/
def wordAt (s : List Char) (i : Nat) : Bool :=
  match s.get? i with
  | some c => isWordChar c
  | none => false

/-- Whether the character just before position `i` (if any) is a word character. -/
def prevWord (s : List Char) (i : Nat) : Bool :=
  match i with
  | 0 => false
  | j + 1 => wordAt s j

/-- The regex `\b` at position `i`: exactly one of the two adjacent characters
is a word character (a missing neighbour counts as non-word). -/
def boundaryB (s : List Char) (i : Nat) : Bool :=
  prevWord s i != wordAt s i

/-- `CODE_PATTERN` matches at position `i` of `s`: word boundary, the 16
characters of `[0-9*]{10}-[0-9*]{2}-[0-9*]{2}`, word boundary. -/
def matchAt (s : List Char) (i : Nat) : Bool :=
  boundaryB s i && (matchCore (s.drop i)).isSome && boundaryB s (i + 16)

/-- Scanning loop of `re.finditer`: try each position left to right, and on a
match emit `(start, end)` and resume at the match end (the pattern has fixed
width 16 and cannot match empty).  `fuel` bounds the number of scan steps. -/
def finditerAux (s : List Char) : Nat → Nat → List (Nat × Nat)
  | 0, _ => []
  | fuel + 1, i =>
    if matchAt s i then (i, i + 16) :: finditerAux s fuel (i + 16)
    else if i < s.length then finditerAux s fuel (i + 1)
    else []

/-- `CODE_PATTERN.finditer(line)`: the list of non-overlapping matches, as
`(start, end)` index pairs, left to right. -/
def finditer (s : List Char) : List (Nat × Nat) :=
  finditerAux s (s.length + 1) 0

/-! ### Records and the two extractors -/

/-- Python `f"{chapter:02d}"`: the decimal digits zero-padded to width 2. -/
def pad2 (n : Nat) : List Char :=
  let ds := Nat.toDigits 10 n
  if ds.length < 2 then '0' :: ds else ds

/-- A `(chapter, code, description)` record produced by `extract_codes_from_text`. -/
structure CodeRecord where
  chapter : List Char
  code : List Char
  description : List Char
deriving DecidableEq, Repr

/-- A `(chapter, chapter_title)` record accumulated by `main`. -/
structure ChapterRec where
  chapter : List Char
  chapter_title : List Char
deriving DecidableEq, Repr

/-- The record built for one regex match `m = (start, end)` on a line:
`code = line[start:end]` and
`description = line[end:].strip().lstrip(" -–—:")`. -/
def matchRecord (chapter : Nat) (line : List Char) (m : Nat × Nat) : CodeRecord :=
  { chapter := pad2 chapter
    code := (line.drop m.1).take (m.2 - m.1)
    description := pyLstrip stripSetChars (pyStrip (line.drop m.2)) }

/-- Processing one match inside `extract_codes_from_text`: build the record,
then append it unless its `(chapter, code, description)` key was already seen. -/
def extractMatch (chapter : Nat) (line : List Char)
    (st : List CodeRecord × List (Nat × List Char × List Char)) (m : Nat × Nat) :
    List CodeRecord × List (Nat × List Char × List Char) :=
  let r := matchRecord chapter line m
  let key : Nat × List Char × List Char := (chapter, r.code, r.description)
  if key ∈ st.2 then st else (st.1 ++ [r], key :: st.2)

/-- Processing one raw line inside `extract_codes_from_text`: strip it, skip
it when empty, otherwise fold over all pattern matches. -/
def extractLine (chapter : Nat)
    (st : List CodeRecord × List (Nat × List Char × List Char)) (line0 : List Char) :
    List CodeRecord × List (Nat × List Char × List Char) :=
  let line := pyStrip line0
  if line = [] then st
  else (finditer line).foldl (extractMatch chapter line) st

/-- `extract_codes_from_text(text, chapter)`: scan the stripped non-empty
lines, emit one record per pattern match, deduplicated within the chapter by
`(chapter, code, description)`. -/
def extract_codes_from_text (text : List Char) (chapter : Nat) : List CodeRecord :=
  ((pySplitlines text).foldl (extractLine chapter) ([], [])).1

/-- The regex `^{CC}\s+(CHAPTER\s+.+)$` applied to one (newline-free) line:
on success returns the captured group, which runs from the literal `CHAPTER`
to the end of the line.  `\s+` before the group must stop exactly at the
first non-whitespace character because the group starts with the literal `C`;
inside the group, `\s+.+` matches iff a whitespace character follows
`CHAPTER` and at least one further character follows it. -/
def chapterLineMatch (cc : List Char) (line : List Char) : Option (List Char) :=
  if line.take cc.length = cc then
    let r := line.drop cc.length
    let w := r.takeWhile pyIsSpace
    let g := r.dropWhile pyIsSpace
    if w ≠ [] ∧ g.take 7 = str "CHAPTER" then
      match g.drop 7 with
      | c :: _ :: _ => if pyIsSpace c then some g else none
      | _ => none
    else none
  else none

/-- The line loop of `extract_chapter_name`: strip each line, skip empty
lines, return the stripped captured group of the first matching line. -/
def chapterNameLoop (cc : List Char) : List (List Char) → List Char
  | [] => []
  | line0 :: rest =>
    let line := pyStrip line0
    if line = [] then chapterNameLoop cc rest
    else
      match chapterLineMatch cc line with
      | some g => pyStrip g
      | none => chapterNameLoop cc rest

/-- `extract_chapter_name(text, chapter)`: the `'CHAPTER ...'` title line for
the two-digit chapter string, or the empty string when no line matches. -/
def extract_chapter_name (text : List Char) (chapter : Nat) : List Char :=
  chapterNameLoop (pad2 chapter) (pySplitlines text)

/-! ### Deduplication (the two seen-set loops of `main`) -/

/-- The seen-set loop shared by both deduplication passes of `main`: keep a
record when its key has not been seen, remembering every key met. -/
def dedupByAux {α κ : Type} [DecidableEq κ] (key : α → κ) (seen : List κ) :
    List α → List α
  | [] => []
  | x :: xs =>
    if key x ∈ seen then dedupByAux key seen xs
    else x :: dedupByAux key (key x :: seen) xs

/-- Deduplicate a record list by a projection to an identity key, first
occurrence winning, as in the two loops at the end of `main`. -/
def dedupBy {α κ : Type} [DecidableEq κ] (key : α → κ) (l : List α) : List α :=
  dedupByAux key [] l

/-! ### The driver loop of `main` -/

/-- Outcome classes of `fetch_chapter_text`: a non-2xx response
(`requests.HTTPError`) or a failed request (`requests.RequestException`),
each carrying its printed detail. -/
inductive FetchError where
  | http (detail : List Char)
  | network (detail : List Char)
deriving DecidableEq, Repr

/-- The progress lines printed by `main`, one constructor per `print` call
in the chapter loop. -/
inductive LogEntry where
  | fetching (n : Nat)
  | httpError (n : Nat) (detail : List Char)
  | requestError (n : Nat) (detail : List Char)
  | found (n : Nat) (count : Nat)
deriving DecidableEq, Repr

/-- Mutable state of the chapter loop: the two accumulator lists, the
progress log, and the number of `time.sleep(0.3)` calls performed. -/
structure RunState where
  codeRecords : List CodeRecord
  chapterRecords : List ChapterRec
  log : List LogEntry
  sleeps : Nat
deriving DecidableEq, Repr

/-- `range(1, 100)`: the chapter numbers 1..99 visited by the loop. -/
def chapterList : List Nat := List.range' 1 99

/-- One iteration of the chapter loop of `main`.  A network outcome is
supplied by the oracle `fetch`; on error the iteration only logs and moves
on (in particular it does not sleep), on success it appends exactly one
title record, appends the chapter's code records, and sleeps. -/
def processChapter (fetch : Nat → Except FetchError (List Char))
    (st : RunState) (n : Nat) : RunState :=
  let st1 := { st with log := st.log ++ [LogEntry.fetching n] }
  match fetch n with
  | .error (.http d) => { st1 with log := st1.log ++ [LogEntry.httpError n d] }
  | .error (.network d) => { st1 with log := st1.log ++ [LogEntry.requestError n d] }
  | .ok text =>
    let name := extract_chapter_name text n
    let st2 :=
      if name ≠ [] then
        { st1 with chapterRecords := st1.chapterRecords ++ [ChapterRec.mk (pad2 n) name] }
      else
        { st1 with chapterRecords := st1.chapterRecords ++ [ChapterRec.mk (pad2 n) []] }
    let codes := extract_codes_from_text text n
    { st2 with
        log := st2.log ++ [LogEntry.found n codes.length]
        codeRecords := st2.codeRecords ++ codes
        sleeps := st2.sleeps + 1 }

/-- The whole chapter loop: fold `processChapter` over chapters 1..99. -/
def runDriver (fetch : Nat → Except FetchError (List Char)) : RunState :=
  chapterList.foldl (processChapter fetch) ⟨[], [], [], 0⟩

/-- Key of the global code deduplication in `main`:
`(rec["chapter"], rec["code"], rec["description"])`. -/
def mainCodeKey (r : CodeRecord) : List Char × List Char × List Char :=
  (r.chapter, r.code, r.description)

/-! ### CSV output (`csv.DictWriter` with the default dialect) -/

/-- Minimal quoting rule of the `csv` default dialect: a field is quoted iff
it contains the delimiter, the quote character, or a line-break character. -/
def needsQuote (f : List Char) : Bool :=
  f.any fun c => c == ',' || c == '"' || c == '\r' || c == '\n'

/-- Double every embedded quote character. -/
def escapeQuotes (f : List Char) : List Char :=
  f.flatMap fun c => if c = '"' then ['"', '"'] else [c]

/-- Encode one field: quoted with doubled quotes when needed, verbatim otherwise. -/
def encodeField (f : List Char) : List Char :=
  if needsQuote f then '"' :: (escapeQuotes f ++ ['"']) else f

/-- Join encoded fields with the comma delimiter. -/
def joinComma : List (List Char) → List Char
  | [] => []
  | [f] => f
  | f :: fs => f ++ ',' :: joinComma fs

/-- Encode one row: comma-joined fields terminated by CRLF, the default
`lineterminator` of the `csv` module. -/
def encodeRow (fs : List (List Char)) : List Char :=
  joinComma (fs.map encodeField) ++ ['\r', '\n']

/-- The full file text for a list of rows. -/
def writeTable (rows : List (List (List Char))) : List Char :=
  (rows.map encodeRow).flatten

/-- Header of the codes table, the `fieldnames` of the first `DictWriter`. -/
def codesHeader : List (List Char) := [str "chapter", str "code", str "description"]

/-- Fields of one code record in `fieldnames` order. -/
def codeFields (r : CodeRecord) : List (List Char) := [r.chapter, r.code, r.description]

/-- The codes CSV file: header row, then one row per record. -/
def writeCodesCSV (recs : List CodeRecord) : List Char :=
  writeTable (codesHeader :: recs.map codeFields)

/-- Header of the chapters table. -/
def chaptersHeader : List (List Char) := [str "chapter", str "chapter_title"]

/-- Fields of one chapter-title record in `fieldnames` order. -/
def chapterFields (r : ChapterRec) : List (List Char) := [r.chapter, r.chapter_title]

/-- The chapters CSV file: header row, then one row per record. -/
def writeChaptersCSV (recs : List ChapterRec) : List Char :=
  writeTable (chaptersHeader :: recs.map chapterFields)

/-- Result of one full run of `main`: the deduplicated record lists, the two
produced file texts, and the process exit code (always 0 — every per-chapter
error is caught inside the loop, so `main` returns normally). -/
structure MainResult where
  records : List CodeRecord
  chapters : List ChapterRec
  codesFile : List Char
  chaptersFile : List Char
  exitCode : Nat
deriving Repr

/-- `main` after the chapter loop: global dedup of the code records by
`(chapter, code, description)`, dedup of the chapter records by chapter,
write both tables, exit 0. -/
def runMain (fetch : Nat → Except FetchError (List Char)) : MainResult :=
  let st := runDriver fetch
  let deduped := dedupBy mainCodeKey st.codeRecords
  let chaptersClean := dedupBy (fun r => r.chapter) st.chapterRecords
  { records := deduped
    chapters := chaptersClean
    codesFile := writeCodesCSV deduped
    chaptersFile := writeChaptersCSV chaptersClean
    exitCode := 0 }

/-! ### A CSV reader

Modelled from the spec: the repository only writes the tables, but the
round-trip property speaks of "reading the produced table back".  The reader
below is a standard state-machine CSV parser for the written dialect: comma
delimiter, double-quote quoting with doubled quotes as escapes, rows ended by
CR, LF or CRLF, a blank line read as the empty row, no trailing empty row. -/
inductive CsvMode where
  | rowStart
  | fieldStart
  | unquoted
  | quoted
  | quoteEnd
  | afterCR
deriving DecidableEq, Repr

/-- Parser state: finished rows, fields of the current row, characters of the
current field, and the automaton mode. -/
structure CsvState where
  rows : List (List (List Char))
  cur : List (List Char)
  field : List Char
  mode : CsvMode
deriving DecidableEq, Repr

/-- Transition for a character read at the start of a row (also used after a
CR when the following character is not LF). -/
def csvStartChar (st : CsvState) (c : Char) : CsvState :=
  if c = '"' then { st with mode := .quoted }
  else if c = ',' then { st with cur := st.cur ++ [st.field], field := [], mode := .fieldStart }
  else if c = '\r' then { st with rows := st.rows ++ [[]], cur := [], field := [], mode := .afterCR }
  else if c = '\n' then { st with rows := st.rows ++ [[]], cur := [], field := [], mode := .rowStart }
  else { st with field := st.field ++ [c], mode := .unquoted }

/-- One step of the CSV reading automaton. -/
def csvStep : CsvState → Char → CsvState
  | ⟨rows, cur, field, .rowStart⟩, c => csvStartChar ⟨rows, cur, field, .rowStart⟩ c
  | ⟨rows, cur, field, .fieldStart⟩, c =>
    if c = '"' then ⟨rows, cur, field, .quoted⟩
    else if c = ',' then ⟨rows, cur ++ [field], [], .fieldStart⟩
    else if c = '\r' then ⟨rows ++ [cur ++ [field]], [], [], .afterCR⟩
    else if c = '\n' then ⟨rows ++ [cur ++ [field]], [], [], .rowStart⟩
    else ⟨rows, cur, field ++ [c], .unquoted⟩
  | ⟨rows, cur, field, .unquoted⟩, c =>
    if c = ',' then ⟨rows, cur ++ [field], [], .fieldStart⟩
    else if c = '\r' then ⟨rows ++ [cur ++ [field]], [], [], .afterCR⟩
    else if c = '\n' then ⟨rows ++ [cur ++ [field]], [], [], .rowStart⟩
    else ⟨rows, cur, field ++ [c], .unquoted⟩
  | ⟨rows, cur, field, .quoted⟩, c =>
    if c = '"' then ⟨rows, cur, field, .quoteEnd⟩
    else ⟨rows, cur, field ++ [c], .quoted⟩
  | ⟨rows, cur, field, .quoteEnd⟩, c =>
    if c = '"' then ⟨rows, cur, field ++ ['"'], .quoted⟩
    else if c = ',' then ⟨rows, cur ++ [field], [], .fieldStart⟩
    else if c = '\r' then ⟨rows ++ [cur ++ [field]], [], [], .afterCR⟩
    else if c = '\n' then ⟨rows ++ [cur ++ [field]], [], [], .rowStart⟩
    else ⟨rows, cur, field ++ [c], .unquoted⟩
  | ⟨rows, cur, field, .afterCR⟩, c =>
    if c = '\n' then ⟨rows, cur, field, .rowStart⟩
    else csvStartChar ⟨rows, cur, field, .rowStart⟩ c

/-- Close the parse at end of input, emitting a final unterminated row if one
is in progress. -/
def csvFlush (st : CsvState) : List (List (List Char)) :=
  match st.mode with
  | .rowStart => st.rows
  | .afterCR => st.rows
  | _ => st.rows ++ [st.cur ++ [st.field]]

/-- Parse a whole CSV text into its rows of fields. -/
def parseCSV (s : List Char) : List (List (List Char)) :=
  csvFlush (s.foldl csvStep ⟨[], [], [], .rowStart⟩)

/-- Modelled from the spec: reading the produced table back as a table — the
header row names the columns and the remaining rows are the records, as
`csv.DictReader` consumes a file (the repository contains no reader). -/
def readTable (s : List Char) : List (List (List Char)) :=
  match parseCSV s with
  | [] => []
  | _ :: rows => rows

/-! ### Helper views of the driver loop, and spec-side definitions -/

/-- Code records contributed by chapter `n` under oracle `fetch`. -/
def chapterCodes (fetch : Nat → Except FetchError (List Char)) (n : Nat) :
    List CodeRecord :=
  match fetch n with
  | .ok text => extract_codes_from_text text n
  | .error _ => []

/-- The title record contributed by chapter `n`, if its fetch succeeds. -/
def chapterTitleRec (fetch : Nat → Except FetchError (List Char)) (n : Nat) :
    Option ChapterRec :=
  match fetch n with
  | .ok text =>
    let name := extract_chapter_name text n
    some (if name ≠ [] then ⟨pad2 n, name⟩ else ⟨pad2 n, []⟩)
  | .error _ => none

/-- Log lines contributed by chapter `n`. -/
def chapterLog (fetch : Nat → Except FetchError (List Char)) (n : Nat) :
    List LogEntry :=
  LogEntry.fetching n ::
    match fetch n with
    | .ok text => [LogEntry.found n (extract_codes_from_text text n).length]
    | .error (.http d) => [LogEntry.httpError n d]
    | .error (.network d) => [LogEntry.requestError n d]

/-- Whether a fetch outcome is a success. -/
def fetchOk (r : Except FetchError (List Char)) : Bool :=
  match r with
  | .ok _ => true
  | .error _ => false

/-- The log line produced for a failed chapter, carrying the chapter number
and the error detail. -/
def errLogEntry (n : Nat) (e : FetchError) : LogEntry :=
  match e with
  | .http d => LogEntry.httpError n d
  | .network d => LogEntry.requestError n d

/-- The character at index `i` exists and is a word character. -/
def IsWordAt (s : List Char) (i : Nat) : Prop :=
  ∃ c, s.get? i = some c ∧ isWordChar c = true

/-- Some character precedes position `i` and is a word character. -/
def PrevIsWord (s : List Char) (i : Nat) : Prop :=
  ∃ j, i = j + 1 ∧ IsWordAt s j

/-- Spec reading of a word boundary: exactly one of the character before the
position and the character at the position is a word character. -/
def WordBoundaryAt (s : List Char) (i : Nat) : Prop :=
  Xor' (PrevIsWord s i) (IsWordAt s i)

/-- Spec reading of the tariff-code pattern matching at position `i`: word
boundaries at both ends, and the 16 characters starting at `i` are 10
digit-or-wildcard characters, a hyphen, 2 digit-or-wildcard characters, a
hyphen, and 2 digit-or-wildcard characters. -/
def specCodeMatchAt (s : List Char) (i : Nat) : Prop :=
  WordBoundaryAt s i ∧ WordBoundaryAt s (i + 16) ∧
  ∃ a b c, (s.drop i).take 16 = a ++ '-' :: (b ++ '-' :: c) ∧
    a.length = 10 ∧ b.length = 2 ∧ c.length = 2 ∧
    (∀ x ∈ a, x.isDigit = true ∨ x = '*') ∧
    (∀ x ∈ b, x.isDigit = true ∨ x = '*') ∧
    (∀ x ∈ c, x.isDigit = true ∨ x = '*')

/-- The description transform claimed by the spec (one combined repeated
strip over whitespace, the dash variants and the colon). -/
def claimedDescStrip (s : List Char) : List Char :=
  s.dropWhile fun c => pyIsSpace c || stripSetChars.contains c

/-- The amended description transform: leading whitespace stripped first,
then leading characters from the set of space, hyphen, en-dash, em-dash and
colon stripped; trailing stripping is vacuous on suffixes of stripped lines. -/
def amendedDesc (s : List Char) : List Char :=
  pyLstrip stripSetChars (pyLstripWS s)

/-- A string has no trailing whitespace (vacuously so when empty). -/
def noTrailWS (l : List Char) : Bool :=
  match l.getLast? with
  | some c => !pyIsSpace c
  | none => true

/-- Spec reading of a title line for two-digit chapter string `cc`:
start of line, `cc`, one or more whitespace characters, then the group — the
literal `CHAPTER`, whitespace, and the remaining text to the end of the line. -/
def SpecTitleLine (cc l : List Char) : Prop :=
  ∃ w g, l = cc ++ w ++ g ∧ w ≠ [] ∧ (∀ c ∈ w, pyIsSpace c = true) ∧
    g.take 7 = str "CHAPTER" ∧
    ∃ w2 t, g.drop 7 = w2 ++ t ∧ w2 ≠ [] ∧ (∀ c ∈ w2, pyIsSpace c = true)

/-- Executable form of `SpecTitleLine`, used to pick the first matching line. -/
def specTitleLineB (cc l : List Char) : Bool :=
  l.take cc.length == cc &&
  (l.drop cc.length).takeWhile pyIsSpace != [] &&
  ((l.drop cc.length).dropWhile pyIsSpace).take 7 == str "CHAPTER" &&
  (((l.drop cc.length).dropWhile pyIsSpace).drop 7).takeWhile pyIsSpace != []

/-- The captured group of a title line: the text from `CHAPTER` to the end
of the line (everything after the chapter digits and the following blanks). -/
def titleGroup (cc l : List Char) : List Char :=
  (l.drop cc.length).dropWhile pyIsSpace

/-- Spec-side chapter-title extraction: among the stripped non-empty lines,
take the first matching line and return its captured group trimmed, or the
empty string when no line matches. -/
def chapterNameSpec (text : List Char) (chapter : Nat) : List Char :=
  let cc := pad2 chapter
  match ((pySplitlines text).map pyStrip |>.filter (· ≠ [])).find? (specTitleLineB cc) with
  | some l => pyStrip (titleGroup cc l)
  | none => []

/-- Spec-side deduplication: keep the first record, discard every later
record sharing its key, recurse on the remainder. -/
def specDedup {α κ : Type} [DecidableEq κ] (key : α → κ) : List α → List α
  | [] => []
  | x :: xs => x :: specDedup key (xs.filter fun y => key y ≠ key x)
termination_by l => l.length
decreasing_by
  simp only [List.length_cons]
  exact Nat.lt_succ_of_le (List.length_filter_le _ _)

/-- A fetch oracle that fails chapter 1 with a network error and returns an
empty page elsewhere. -/
def failFetch1 : Nat → Except FetchError (List Char) :=
  fun n => if n = 1 then .error (.network (str "boom")) else .ok []

/-- A fetch oracle that always succeeds with an empty page. -/
def okFetch : Nat → Except FetchError (List Char) :=
  fun _ => .ok []

/-- A fetch oracle that fails chapter 7 with an HTTP error. -/
def errFetch7 : Nat → Except FetchError (List Char) :=
  fun n => if n = 7 then .error (.http (str "500 Server Error")) else .ok []

/-- The first character exists and is a decimal digit. -/
def headDigit (l : List Char) : Bool :=
  match l.head? with
  | some c => c.isDigit
  | none => false

/-- The last character exists and is a decimal digit. -/
def lastDigit (l : List Char) : Bool :=
  match l.getLast? with
  | some c => c.isDigit
  | none => false

/-- The first character exists and is a word character. -/
def headWordB (l : List Char) : Bool :=
  match l.head? with
  | some c => isWordChar c
  | none => false

/-- The last character exists and is a word character. -/
def lastWordB (l : List Char) : Bool :=
  match l.getLast? with
  | some c => isWordChar c
  | none => false

/-- Automaton mode reached after reading one encoded field from a start mode. -/
def fieldEndMode (m : CsvMode) (f : List Char) : CsvMode :=
  if needsQuote f then .quoteEnd else if f = [] then m else .unquoted

/-! ### Lemmas about the pattern consumers -/

theorem consumeClass_append (p : Char → Bool) (t r : List Char) (h : t.all p = true) :
    consumeClass p t.length (t ++ r) = some r := by
  induction t with
  | nil => rfl
  | cons c cs ih =>
    simp only [List.all_cons, Bool.and_eq_true] at h
    simpa [consumeClass, h.1] using ih h.2

theorem consumeClass_some {p : Char → Bool} :
    ∀ {n : Nat} {s s' : List Char}, consumeClass p n s = some s' →
      ∃ t, s = t ++ s' ∧ t.length = n ∧ t.all p = true := by
  intro n
  induction n with
  | zero =>
    intro s s' h
    simp only [consumeClass, Option.some.injEq] at h
    exact ⟨[], by simp [h]⟩
  | succ n ih =>
    intro s s' h
    cases s with
    | nil => simp [consumeClass] at h
    | cons c cs =>
      simp only [consumeClass] at h
      by_cases hc : p c
      · rw [if_pos hc] at h
        obtain ⟨t, ht, hl, ha⟩ := ih h
        exact ⟨c :: t, by simp [ht], by simp [hl], by simp [List.all_cons, hc, ha]⟩
      · rw [if_neg hc] at h; exact absurd h (by simp)

theorem consumeChar_some {c : Char} {s s' : List Char}
    (h : consumeChar c s = some s') : s = c :: s' := by
  cases s with
  | nil => simp [consumeChar] at h
  | cons d cs =>
    simp only [consumeChar] at h
    by_cases hd : d = c
    · rw [if_pos hd] at h; simp only [Option.some.injEq] at h; rw [hd, h]
    · rw [if_neg hd] at h; exact absurd h (by simp)

theorem consumeChar_cons (c : Char) (r : List Char) : consumeChar c (c :: r) = some r := by
  simp [consumeChar]

theorem matchCore_some {s r : List Char} (h : matchCore s = some r) :
    ∃ a b c, s = a ++ '-' :: (b ++ '-' :: (c ++ r)) ∧
      a.length = 10 ∧ b.length = 2 ∧ c.length = 2 ∧
      a.all digitStar = true ∧ b.all digitStar = true ∧ c.all digitStar = true := by
  unfold matchCore at h
  obtain ⟨s1, h1, h⟩ := Option.bind_eq_some.mp h
  obtain ⟨s2, h2, h⟩ := Option.bind_eq_some.mp h
  obtain ⟨s3, h3, h⟩ := Option.bind_eq_some.mp h
  obtain ⟨s4, h4, h5⟩ := Option.bind_eq_some.mp h
  obtain ⟨a, hsa, hal, haa⟩ := consumeClass_some h1
  obtain ⟨b, hsb, hbl, hba⟩ := consumeClass_some h3
  obtain ⟨c, hsc, hcl, hca⟩ := consumeClass_some h5
  have h2' := consumeChar_some h2
  have h4' := consumeChar_some h4
  exact ⟨a, b, c, by rw [hsa, h2', hsb, h4', hsc], hal, hbl, hcl, haa, hba, hca⟩

theorem consumeClass_append2 (p : Char → Bool) {n : Nat} (t r : List Char)
    (hn : t.length = n) (h : t.all p = true) : consumeClass p n (t ++ r) = some r :=
  hn ▸ consumeClass_append p t r h

theorem matchCore_of {a b c : List Char} (r : List Char)
    (ha : a.length = 10) (hb : b.length = 2) (hc : c.length = 2)
    (haa : a.all digitStar = true) (hba : b.all digitStar = true)
    (hca : c.all digitStar = true) :
    matchCore (a ++ '-' :: (b ++ '-' :: (c ++ r))) = some r := by
  unfold matchCore
  rw [consumeClass_append2 digitStar a _ ha haa]
  simp only [Option.some_bind]
  rw [consumeChar_cons]
  simp only [Option.some_bind]
  rw [consumeClass_append2 digitStar b _ hb hba]
  simp only [Option.some_bind]
  rw [consumeChar_cons]
  simp only [Option.some_bind]
  exact consumeClass_append2 digitStar c _ hc hca

/-! ### Word boundaries -/

theorem wordAt_iff {s : List Char} {i : Nat} : wordAt s i = true ↔ IsWordAt s i := by
  unfold wordAt IsWordAt
  split <;> simp_all
  intro x hx
  rw [List.getElem?_eq_none (by omega)] at hx
  exact absurd hx (by simp)

theorem prevWord_iff {s : List Char} {i : Nat} : prevWord s i = true ↔ PrevIsWord s i := by
  cases i with
  | zero => simp [prevWord, PrevIsWord]
  | succ j =>
    unfold prevWord PrevIsWord
    rw [wordAt_iff]
    constructor
    · intro h; exact ⟨j, rfl, h⟩
    · rintro ⟨j', hj, h⟩
      obtain rfl : j = j' := by omega
      exact h

theorem boundaryB_iff {s : List Char} {i : Nat} :
    boundaryB s i = true ↔ WordBoundaryAt s i := by
  have hp := prevWord_iff (s := s) (i := i)
  have hw := wordAt_iff (s := s) (i := i)
  unfold boundaryB WordBoundaryAt
  cases hpb : prevWord s i <;> cases hwb : wordAt s i <;>
    rw [hpb] at hp <;> rw [hwb] at hw <;>
      simp_all [Xor']

theorem digitStar_iff {x : Char} : digitStar x = true ↔ (x.isDigit = true ∨ x = '*') := by
  simp [digitStar]

theorem matchAt_iff (s : List Char) (i : Nat) :
    matchAt s i = true ↔ specCodeMatchAt s i := by
  unfold matchAt specCodeMatchAt
  simp only [Bool.and_eq_true, boundaryB_iff, Option.isSome_iff_exists]
  constructor
  · rintro ⟨⟨h1, r, hr⟩, h2⟩
    refine ⟨h1, h2, ?_⟩
    obtain ⟨a, b, c, hs, ha, hb, hc, haa, hba, hca⟩ := matchCore_some hr
    refine ⟨a, b, c, ?_, ha, hb, hc,
      fun x hx => digitStar_iff.mp (List.all_eq_true.mp haa x hx),
      fun x hx => digitStar_iff.mp (List.all_eq_true.mp hba x hx),
      fun x hx => digitStar_iff.mp (List.all_eq_true.mp hca x hx)⟩
    have hlen : (a ++ '-' :: (b ++ '-' :: c)).length = 16 := by simp [ha, hb, hc]
    rw [hs, show a ++ '-' :: (b ++ '-' :: (c ++ r)) = (a ++ '-' :: (b ++ '-' :: c)) ++ r by
      simp, ← hlen, List.take_left]
  · rintro ⟨h1, h2, a, b, c, htake, ha, hb, hc, haa, hba, hca⟩
    refine ⟨⟨h1, ?_⟩, h2⟩
    have hlen : (a ++ '-' :: (b ++ '-' :: c)).length = 16 := by simp [ha, hb, hc]
    have hge : 16 ≤ (s.drop i).length := by
      have hlt := congrArg List.length htake
      rw [List.length_take, hlen] at hlt
      omega
    have hsplit : a ++ '-' :: (b ++ '-' :: (c ++ (s.drop i).drop 16)) = s.drop i := by
      rw [show a ++ '-' :: (b ++ '-' :: (c ++ (s.drop i).drop 16)) =
        (a ++ '-' :: (b ++ '-' :: c)) ++ (s.drop i).drop 16 by simp,
        ← htake, List.take_append_drop]
    refine ⟨(s.drop i).drop 16, ?_⟩
    conv_lhs => rw [← hsplit]
    exact matchCore_of _ ha hb hc
      (List.all_eq_true.mpr fun x hx => digitStar_iff.mpr (haa x hx))
      (List.all_eq_true.mpr fun x hx => digitStar_iff.mpr (hba x hx))
      (List.all_eq_true.mpr fun x hx => digitStar_iff.mpr (hca x hx))

/-- C1: the tariff-code pattern matches exactly at positions carrying a
word-boundary-delimited token of 10 digit-or-wildcard characters, a hyphen,
2 digit-or-wildcard characters, a hyphen and 2 digit-or-wildcard characters;
the three cited wildcard examples match as standalone tokens, and the two
malformed examples match nowhere. -/
theorem claim_C1 :
    (∀ s i, matchAt s i = true ↔ specCodeMatchAt s i) ∧
    finditer (str "0101210000-00-00") = [(0, 16)] ∧
    finditer (str "0102292*00-2*-00") = [(0, 16)] ∧
    finditer (str "010129**00-**-00") = [(0, 16)] ∧
    finditer (str "010121000-00-00") = [] ∧
    finditer (str "0101210000-0-00") = [] :=
  ⟨matchAt_iff, by decide, by decide, by decide, by decide, by decide⟩

/-! ### Deduplication lemmas -/

theorem dedupByAux_eq_specDedup {α κ : Type} [DecidableEq κ] (key : α → κ) :
    ∀ (l : List α) (seen : List κ),
      dedupByAux key seen l = specDedup key (l.filter fun y => key y ∉ seen) := by
  intro l
  induction l with
  | nil => intro seen; simp [dedupByAux, specDedup]
  | cons x xs ih =>
    intro seen
    by_cases hx : key x ∈ seen
    · rw [show dedupByAux key seen (x :: xs) = dedupByAux key seen xs by
        simp [dedupByAux, hx]]
      rw [show (x :: xs).filter (fun y => key y ∉ seen) =
        xs.filter (fun y => key y ∉ seen) by simp [List.filter_cons, hx]]
      exact ih seen
    · rw [show dedupByAux key seen (x :: xs) =
        x :: dedupByAux key (key x :: seen) xs by simp [dedupByAux, hx]]
      rw [show (x :: xs).filter (fun y => key y ∉ seen) =
        x :: xs.filter (fun y => key y ∉ seen) by simp [List.filter_cons, hx]]
      rw [specDedup, ih (key x :: seen)]
      congr 1
      rw [List.filter_filter]
      congr 1
      apply List.filter_congr
      intro y _
      simp [List.mem_cons, not_or]

theorem dedupBy_eq_specDedup {α κ : Type} [DecidableEq κ] (key : α → κ) (l : List α) :
    dedupBy key l = specDedup key l := by
  unfold dedupBy
  rw [dedupByAux_eq_specDedup]
  congr 1
  simp

theorem dedupByAux_eq_self {α κ : Type} [DecidableEq κ] (key : α → κ) :
    ∀ (l : List α) (seen : List κ), (∀ x ∈ l, key x ∉ seen) → (l.map key).Nodup →
      dedupByAux key seen l = l := by
  intro l
  induction l with
  | nil => intro seen _ _; rfl
  | cons x xs ih =>
    intro seen hseen hnd
    have hx : key x ∉ seen := hseen x (List.mem_cons_self x xs)
    rw [show dedupByAux key seen (x :: xs) =
      x :: dedupByAux key (key x :: seen) xs by simp [dedupByAux, hx]]
    simp only [List.map_cons, List.nodup_cons] at hnd
    congr 1
    refine ih (key x :: seen) ?_ hnd.2
    intro y hy
    simp only [List.mem_cons, not_or]
    exact ⟨fun he => hnd.1 (he ▸ List.mem_map_of_mem key hy), hseen y (List.mem_cons_of_mem x hy)⟩

theorem dedupBy_eq_self {α κ : Type} [DecidableEq κ] (key : α → κ) (l : List α)
    (h : (l.map key).Nodup) : dedupBy key l = l :=
  dedupByAux_eq_self key l [] (by simp) h

theorem dedupByAux_sublist {α κ : Type} [DecidableEq κ] (key : α → κ) :
    ∀ (l : List α) (seen : List κ), (dedupByAux key seen l).Sublist l := by
  intro l
  induction l with
  | nil => intro seen; simp [dedupByAux]
  | cons x xs ih =>
    intro seen
    by_cases hx : key x ∈ seen
    · rw [show dedupByAux key seen (x :: xs) = dedupByAux key seen xs by
        simp [dedupByAux, hx]]
      exact (ih seen).cons x
    · rw [show dedupByAux key seen (x :: xs) =
        x :: dedupByAux key (key x :: seen) xs by simp [dedupByAux, hx]]
      exact (ih (key x :: seen)).cons₂ x

theorem dedupBy_subset {α κ : Type} [DecidableEq κ] (key : α → κ) (l : List α) :
    ∀ r ∈ dedupBy key l, r ∈ l :=
  fun _ hr => (dedupByAux_sublist key l []).mem hr

/-- C7: deduplication keeps exactly the first record per identity key in
order — the seen-set loop equals the specification recursion that keeps each
head and discards all later records with its key — and in particular the
final code output of a run is that first-occurrence subsequence of the
accumulated records under the `(chapter, code, description)` key. -/
theorem claim_C7 :
    (∀ {α κ : Type} [DecidableEq κ] (key : α → κ) (l : List α),
      dedupBy key l = specDedup key l) ∧
    (∀ fetch, (runMain fetch).records =
      specDedup mainCodeKey (runDriver fetch).codeRecords) :=
  ⟨fun key l => dedupBy_eq_specDedup key l,
   fun fetch => by simp [runMain, dedupBy_eq_specDedup]⟩

/-! ### Driver loop characterization -/

theorem processChapter_eq (fetch : Nat → Except FetchError (List Char))
    (st : RunState) (n : Nat) :
    processChapter fetch st n =
      { codeRecords := st.codeRecords ++ chapterCodes fetch n
        chapterRecords := st.chapterRecords ++ (chapterTitleRec fetch n).toList
        log := st.log ++ chapterLog fetch n
        sleeps := st.sleeps + (if fetchOk (fetch n) then 1 else 0) } := by
  unfold processChapter chapterCodes chapterTitleRec chapterLog fetchOk
  cases hf : fetch n with
  | error e => cases e <;> simp
  | ok text =>
    by_cases hn : extract_chapter_name text n ≠ [] <;> simp [hn]

theorem foldl_processChapter (fetch : Nat → Except FetchError (List Char)) :
    ∀ (ns : List Nat) (st : RunState),
      ns.foldl (processChapter fetch) st =
        { codeRecords := st.codeRecords ++ ns.flatMap (chapterCodes fetch)
          chapterRecords := st.chapterRecords ++ ns.filterMap (chapterTitleRec fetch)
          log := st.log ++ ns.flatMap (chapterLog fetch)
          sleeps := st.sleeps + ns.countP (fun n => fetchOk (fetch n)) } := by
  intro ns
  induction ns with
  | nil => intro st; simp
  | cons n ns ih =>
    intro st
    rw [List.foldl_cons, processChapter_eq, ih]
    cases ht : chapterTitleRec fetch n <;>
      by_cases hk : fetchOk (fetch n) = true <;>
        simp [ht, hk, List.filterMap_cons, List.countP_cons] <;> omega

theorem runDriver_eq (fetch : Nat → Except FetchError (List Char)) :
    runDriver fetch =
      { codeRecords := chapterList.flatMap (chapterCodes fetch)
        chapterRecords := chapterList.filterMap (chapterTitleRec fetch)
        log := chapterList.flatMap (chapterLog fetch)
        sleeps := chapterList.countP (fun n => fetchOk (fetch n)) } := by
  unfold runDriver
  rw [foldl_processChapter]
  simp

set_option maxRecDepth 2000 in
theorem chapterList_lt100 : ∀ m ∈ chapterList, m < 100 := by decide

set_option maxRecDepth 2000 in
theorem chapterList_nodup : chapterList.Nodup := by decide

set_option maxRecDepth 2000 in
theorem chapterList_length : chapterList.length = 99 := by decide

set_option maxRecDepth 2000 in
theorem pad2_inj100 : ∀ m, m < 100 → ∀ n, n < 100 → pad2 m = pad2 n → m = n := by decide

set_option maxRecDepth 4000 in
/-- C3 fails on the code: a run in which chapter 1's fetch raises a network
error performs only 98 sleeps, not 99 — the `time.sleep(0.3)` call sits after
the `continue` statements of the error handlers, so a failed chapter skips it. -/
theorem claim_C3_cex :
    (runDriver failFetch1).sleeps = 98 ∧ (runDriver failFetch1).sleeps ≠ 99 := by
  constructor <;> decide

/-- C3 amended: the fixed 0.3-time-unit sleep occurs once per successfully
fetched chapter (a failed chapter skips it), so a run performs as many sleeps
as there are fetch successes, and a failure-free complete run performs 99
sleeps, bounding its wall-clock time below by 99 × 0.3 time units plus
cumulative request latency. -/
theorem claim_C3_amended (fetch : Nat → Except FetchError (List Char)) :
    (runDriver fetch).sleeps = chapterList.countP (fun n => fetchOk (fetch n)) ∧
    ((∀ n ∈ chapterList, fetchOk (fetch n) = true) → (runDriver fetch).sleeps = 99) := by
  constructor
  · rw [runDriver_eq]
  · intro hall
    rw [runDriver_eq]
    show chapterList.countP (fun n => fetchOk (fetch n)) = 99
    rw [List.countP_eq_length.mpr hall, chapterList_length]

set_option maxRecDepth 4000 in
theorem claim_C3_amended_witness : (runDriver okFetch).sleeps = 99 :=
  (claim_C3_amended okFetch).2 (by decide)

/-! ### Membership shape of extracted records -/

theorem extractMatch_mem (chapter : Nat) (line : List Char) :
    ∀ (ms : List (Nat × Nat)) (st : List CodeRecord × List (Nat × List Char × List Char))
      (r : CodeRecord), r ∈ (ms.foldl (extractMatch chapter line) st).1 →
      r ∈ st.1 ∨ ∃ m, r = matchRecord chapter line m := by
  intro ms
  induction ms with
  | nil => intro st r h; exact Or.inl h
  | cons m ms ih =>
    intro st r h
    rw [List.foldl_cons] at h
    rcases ih _ r h with h' | h'
    · unfold extractMatch at h'
      by_cases hk : ((chapter, (matchRecord chapter line m).code,
          (matchRecord chapter line m).description) : Nat × List Char × List Char) ∈ st.2
      · rw [if_pos hk] at h'; exact Or.inl h'
      · rw [if_neg hk] at h'
        rcases List.mem_append.mp h' with h'' | h''
        · exact Or.inl h''
        · exact Or.inr ⟨m, (List.mem_singleton.mp h'')⟩
    · exact Or.inr h'

theorem extractLine_mem (chapter : Nat) :
    ∀ (lines : List (List Char)) (st : List CodeRecord × List (Nat × List Char × List Char))
      (r : CodeRecord), r ∈ (lines.foldl (extractLine chapter) st).1 →
      r ∈ st.1 ∨ ∃ line m, r = matchRecord chapter line m := by
  intro lines
  induction lines with
  | nil => intro st r h; exact Or.inl h
  | cons line0 lines ih =>
    intro st r h
    rw [List.foldl_cons] at h
    rcases ih _ r h with h' | h'
    · unfold extractLine at h'
      by_cases he : pyStrip line0 = []
      · rw [if_pos he] at h'; exact Or.inl h'
      · rw [if_neg he] at h'
        rcases extractMatch_mem chapter (pyStrip line0) _ st r h' with h'' | ⟨m, hm⟩
        · exact Or.inl h''
        · exact Or.inr ⟨pyStrip line0, m, hm⟩
    · exact Or.inr h'

theorem extract_mem_shape {text : List Char} {chapter : Nat} {r : CodeRecord}
    (h : r ∈ extract_codes_from_text text chapter) :
    ∃ line m, r = matchRecord chapter line m := by
  unfold extract_codes_from_text at h
  rcases extractLine_mem chapter (pySplitlines text) ([], []) r h with h' | h'
  · exact absurd h' (List.not_mem_nil r)
  · exact h'

theorem extract_chapter_field {text : List Char} {chapter : Nat} {r : CodeRecord}
    (h : r ∈ extract_codes_from_text text chapter) : r.chapter = pad2 chapter := by
  obtain ⟨line, m, rfl⟩ := extract_mem_shape h
  rfl

theorem chapterTitleRec_chapter {fetch : Nat → Except FetchError (List Char)}
    {n : Nat} {r : ChapterRec} (h : chapterTitleRec fetch n = some r) :
    r.chapter = pad2 n := by
  unfold chapterTitleRec at h
  cases hf : fetch n with
  | error e => rw [hf] at h; exact absurd h (by simp)
  | ok text =>
    rw [hf] at h
    simp only [Option.some.injEq] at h
    by_cases hn : extract_chapter_name text n ≠ [] <;> simp [hn] at h <;> rw [← h]

/-- C4: a chapter whose fetch raises an HTTP or request error contributes no
code record and no chapter-title record (the accumulators contain no record
carrying its two-digit chapter string), its failure is logged with the
chapter number and error detail, every other successfully fetched chapter is
still processed, and the run completes with exit code 0. -/
theorem claim_C4 (fetch : Nat → Except FetchError (List Char)) (n : Nat) (e : FetchError)
    (hn : n ∈ chapterList) (hf : fetch n = .error e) :
    (∀ r ∈ (runDriver fetch).codeRecords, r.chapter ≠ pad2 n) ∧
    (∀ r ∈ (runDriver fetch).chapterRecords, r.chapter ≠ pad2 n) ∧
    errLogEntry n e ∈ (runDriver fetch).log ∧
    (∀ m ∈ chapterList, fetchOk (fetch m) = true →
      pad2 m ∈ (runDriver fetch).chapterRecords.map ChapterRec.chapter) ∧
    (runMain fetch).exitCode = 0 := by
  rw [runDriver_eq]
  refine ⟨?_, ?_, ?_, ?_, rfl⟩
  · intro r hr hc
    obtain ⟨m, hm, hrm⟩ := List.mem_flatMap.mp hr
    unfold chapterCodes at hrm
    cases hfm : fetch m with
    | error _ => rw [hfm] at hrm; exact absurd hrm (List.not_mem_nil r)
    | ok text =>
      rw [hfm] at hrm
      have : m = n := pad2_inj100 m (chapterList_lt100 m hm) n
        (chapterList_lt100 n hn) ((extract_chapter_field hrm) ▸ hc)
      rw [this, hf] at hfm
      exact absurd hfm (by simp)
  · intro r hr hc
    obtain ⟨m, hm, hrm⟩ := List.mem_filterMap.mp hr
    have : m = n := pad2_inj100 m (chapterList_lt100 m hm) n
      (chapterList_lt100 n hn) ((chapterTitleRec_chapter hrm) ▸ hc)
    rw [this] at hrm
    unfold chapterTitleRec at hrm
    rw [hf] at hrm
    exact absurd hrm (by simp)
  · refine List.mem_flatMap.mpr ⟨n, hn, ?_⟩
    unfold chapterLog errLogEntry
    rw [hf]
    cases e <;> simp
  · intro m hm hok
    unfold fetchOk at hok
    cases hfm : fetch m with
    | error _ => rw [hfm] at hok; exact absurd hok (by simp)
    | ok text =>
      have hsome : chapterTitleRec fetch m =
          some (if extract_chapter_name text m ≠ [] then
            ChapterRec.mk (pad2 m) (extract_chapter_name text m)
          else ChapterRec.mk (pad2 m) []) := by
        unfold chapterTitleRec
        rw [hfm]
      refine List.mem_map.mpr ⟨_, List.mem_filterMap.mpr ⟨m, hm, hsome⟩, ?_⟩
      by_cases hne : extract_chapter_name text m ≠ [] <;> simp [hne]

/-- Witness for C4 at a concrete failing oracle: chapter 7 raises an HTTP
error and the conclusions hold for that run. -/
theorem claim_C4_witness :
    (∀ r ∈ (runDriver errFetch7).codeRecords, r.chapter ≠ pad2 7) ∧
    (∀ r ∈ (runDriver errFetch7).chapterRecords, r.chapter ≠ pad2 7) ∧
    errLogEntry 7 (FetchError.http (str "500 Server Error")) ∈ (runDriver errFetch7).log ∧
    (∀ m ∈ chapterList, fetchOk (errFetch7 m) = true →
      pad2 m ∈ (runDriver errFetch7).chapterRecords.map ChapterRec.chapter) ∧
    (runMain errFetch7).exitCode = 0 :=
  claim_C4 errFetch7 7 (FetchError.http (str "500 Server Error"))
    (by decide) (by rfl)

/-- C9: the chapter strings of the accumulated chapter-title records are
pairwise distinct in every run, so the final dedup-by-chapter pass of `main`
returns the accumulated list unchanged. -/
theorem claim_C9 (fetch : Nat → Except FetchError (List Char)) :
    ((runDriver fetch).chapterRecords.map ChapterRec.chapter).Nodup ∧
    dedupBy (fun r => r.chapter) (runDriver fetch).chapterRecords =
      (runDriver fetch).chapterRecords ∧
    (runMain fetch).chapters = (runDriver fetch).chapterRecords := by
  have hmap : (runDriver fetch).chapterRecords.map ChapterRec.chapter =
      (chapterList.filter (fun n => fetchOk (fetch n))).map pad2 := by
    rw [runDriver_eq]
    show (chapterList.filterMap (chapterTitleRec fetch)).map ChapterRec.chapter = _
    induction chapterList with
    | nil => rfl
    | cons n ns ih =>
      rw [List.filterMap_cons, List.filter_cons]
      cases hfn : fetch n with
      | error e =>
        have h1 : chapterTitleRec fetch n = none := by unfold chapterTitleRec; rw [hfn]
        have h2 : fetchOk (fetch n) = false := by unfold fetchOk; rw [hfn]
        rw [h1]
        simp only [h2, Bool.false_eq_true, if_false, cond_false]
        exact ih
      | ok text =>
        have h1 : chapterTitleRec fetch n =
            some (if extract_chapter_name text n ≠ [] then
              ChapterRec.mk (pad2 n) (extract_chapter_name text n)
            else ChapterRec.mk (pad2 n) []) := by
          unfold chapterTitleRec; rw [hfn]
        have h2 : fetchOk (fetch n) = true := by unfold fetchOk; rw [hfn]
        rw [h1]
        simp only [h2, if_true, cond_true, List.map_cons]
        rw [ih]
        congr 1
        by_cases hne : extract_chapter_name text n ≠ [] <;> simp [hne]
  have hnodup : ((runDriver fetch).chapterRecords.map ChapterRec.chapter).Nodup := by
    rw [hmap]
    refine (chapterList_nodup.filter _).map_on ?_
    intro x hx y hy hxy
    exact pad2_inj100 x (chapterList_lt100 x (List.mem_of_mem_filter hx))
      y (chapterList_lt100 y (List.mem_of_mem_filter hy)) hxy
  have hded : dedupBy (fun r => r.chapter) (runDriver fetch).chapterRecords =
      (runDriver fetch).chapterRecords := dedupBy_eq_self _ _ hnodup
  exact ⟨hnodup, hded, by simp [runMain, hded]⟩

/-! ### Leading/trailing strip lemmas -/

theorem getLast?_of_suffix {s u : List Char} (h : s <:+ u) {c : Char}
    (hc : s.getLast? = some c) : u.getLast? = some c := by
  obtain ⟨t, rfl⟩ := h
  cases s with
  | nil => exact absurd hc (by simp)
  | cons x xs =>
    rw [List.getLast?_append_of_ne_nil t (by simp)]
    exact hc

theorem noTrailWS_of_suffix {s u : List Char} (h : s <:+ u)
    (hu : noTrailWS u = true) : noTrailWS s = true := by
  unfold noTrailWS
  cases hs : s.getLast? with
  | none => rfl
  | some c =>
    unfold noTrailWS at hu
    rw [getLast?_of_suffix h hs] at hu
    exact hu

theorem pyRstripWS_eq_self {t : List Char} (h : noTrailWS t = true) :
    pyRstripWS t = t := by
  unfold pyRstripWS
  cases ht : t.reverse with
  | nil =>
    have : t = [] := by simpa using congrArg List.reverse ht
    simp [this]
  | cons c cs =>
    have hlast : t.getLast? = some c := by
      rw [← List.head?_reverse, ht]; rfl
    unfold noTrailWS at h
    rw [hlast] at h
    simp only [Bool.not_eq_true'] at h
    rw [List.dropWhile_cons_of_neg (by simp [h]), ← ht, List.reverse_reverse]

theorem noTrailWS_pyRstripWS (u : List Char) : noTrailWS (pyRstripWS u) = true := by
  unfold noTrailWS pyRstripWS
  cases hs : (u.reverse.dropWhile pyIsSpace).reverse.getLast? with
  | none => rfl
  | some c =>
    rw [List.getLast?_reverse] at hs
    have := List.head?_dropWhile_not pyIsSpace u.reverse
    rw [hs] at this
    simp [this]

theorem noTrailWS_pyStrip (s : List Char) : noTrailWS (pyStrip s) = true :=
  noTrailWS_pyRstripWS _

theorem pyStrip_eq_lstrip {u : List Char} (h : noTrailWS u = true) :
    pyStrip u = pyLstripWS u := by
  unfold pyStrip
  exact pyRstripWS_eq_self
    (noTrailWS_of_suffix (List.dropWhile_suffix pyIsSpace) h)

/-- C2 fails on the code: on the line `0101210000-00-00-<TAB>-X` the code's
description is `"<TAB>-X"` — the `lstrip(" -–—:")` pass stops at the tab
because only the plain space, not every whitespace character, belongs to its
strip set — whereas the claimed combined repeated strip yields `"X"`. -/
theorem claim_C2_cex :
    extract_codes_from_text (str "0101210000-00-00-\t-X") 1 =
      [CodeRecord.mk (str "01") (str "0101210000-00-00") (str "\t-X")] ∧
    claimedDescStrip ((pyStrip (str "0101210000-00-00-\t-X")).drop 16) = str "X" ∧
    str "\t-X" ≠ str "X" :=
  ⟨by decide, by decide, by decide⟩

/-- C2 amended: for every line without trailing whitespace (every line the
extractor processes is stripped first) and every match on it, the record's
description is the substring after the match end with leading whitespace
stripped first and then leading characters from the set of space,
hyphen-minus, en-dash, em-dash and colon stripped (the second pass strips the
plain space only, not other whitespace); in particular the cited example line
yields the description `Live horses`. -/
theorem claim_C2_amended :
    (∀ (line : List Char) (chapter : Nat) (m : Nat × Nat), noTrailWS line = true →
      (matchRecord chapter line m).description = amendedDesc (line.drop m.2)) ∧
    extract_codes_from_text (str "0101210000-00-00 - Live horses") 1 =
      [CodeRecord.mk (str "01") (str "0101210000-00-00") (str "Live horses")] := by
  constructor
  · intro line chapter m hline
    show pyLstrip stripSetChars (pyStrip (line.drop m.2)) = amendedDesc (line.drop m.2)
    rw [pyStrip_eq_lstrip (noTrailWS_of_suffix (List.drop_suffix m.2 line) hline)]
    rfl
  · decide

/-- Witness for C2 amended at the example line and its match `(0, 16)`. -/
theorem claim_C2_amended_witness :
    noTrailWS (str "0101210000-00-00 - Live horses") = true ∧
    (matchRecord 1 (str "0101210000-00-00 - Live horses") (0, 16)).description =
      amendedDesc ((str "0101210000-00-00 - Live horses").drop 16) :=
  ⟨by decide, claim_C2_amended.1 (str "0101210000-00-00 - Live horses") 1 (0, 16) (by decide)⟩

/-- C10: every record produced by the extractor has a description without
trailing whitespace whose first character, when the description is
non-empty, is none of space, hyphen-minus, en-dash, em-dash, colon. -/
theorem claim_C10 (text : List Char) (chapter : Nat) :
    ∀ r ∈ extract_codes_from_text text chapter,
      noTrailWS r.description = true ∧
      ∀ c, r.description.head? = some c →
        c ≠ ' ' ∧ c ≠ '-' ∧ c ≠ '–' ∧ c ≠ '—' ∧ c ≠ ':' := by
  intro r hr
  obtain ⟨line, m, rfl⟩ := extract_mem_shape hr
  constructor
  · exact noTrailWS_of_suffix
      (List.dropWhile_suffix _) (noTrailWS_pyStrip (line.drop m.2))
  · intro c hc
    have hd := List.head?_dropWhile_not
      (fun c => stripSetChars.contains c) (pyStrip (line.drop m.2))
    rw [show (matchRecord chapter line m).description =
      (pyStrip (line.drop m.2)).dropWhile (fun c => stripSetChars.contains c) from rfl] at hc
    rw [hc] at hd
    simpa [stripSetChars, not_or] using hd

/-- Witness for C10: the record of the example line is in the extractor
output and satisfies both description invariants. -/
theorem claim_C10_witness :
    noTrailWS (CodeRecord.mk (str "01") (str "0101210000-00-00")
      (str "Live horses")).description = true ∧
    ∀ c, (CodeRecord.mk (str "01") (str "0101210000-00-00")
      (str "Live horses")).description.head? = some c →
        c ≠ ' ' ∧ c ≠ '-' ∧ c ≠ '–' ∧ c ≠ '—' ∧ c ≠ ':' :=
  claim_C10 (str "0101210000-00-00 - Live horses") 1
    (CodeRecord.mk (str "01") (str "0101210000-00-00") (str "Live horses")) (by decide)

/-! ### Chapter-title extraction versus its specification -/

theorem takeWhile_append_all {p : Char → Bool} {w : List Char} (g : List Char)
    (hw : ∀ c ∈ w, p c = true) : (w ++ g).takeWhile p = w ++ g.takeWhile p := by
  induction w with
  | nil => rfl
  | cons c cs ih =>
    simp only [List.cons_append]
    rw [List.takeWhile_cons_of_pos (hw c (List.mem_cons_self c cs)),
      ih (fun x hx => hw x (List.mem_cons_of_mem _ hx))]

theorem dropWhile_append_all {p : Char → Bool} {w : List Char} (g : List Char)
    (hw : ∀ c ∈ w, p c = true) : (w ++ g).dropWhile p = g.dropWhile p := by
  induction w with
  | nil => rfl
  | cons c cs ih =>
    simp only [List.cons_append]
    rw [List.dropWhile_cons_of_pos (hw c (List.mem_cons_self c cs)),
      ih (fun x hx => hw x (List.mem_cons_of_mem _ hx))]

theorem chapterLineMatch_eq_spec (cc l : List Char) (hl : noTrailWS l = true) :
    chapterLineMatch cc l = if specTitleLineB cc l then some (titleGroup cc l) else none := by
  by_cases h1 : l.take cc.length = cc
  · by_cases h2 : (l.drop cc.length).takeWhile pyIsSpace ≠ [] ∧
        ((l.drop cc.length).dropWhile pyIsSpace).take 7 = str "CHAPTER"
    · have hB12 : specTitleLineB cc l =
          ((((l.drop cc.length).dropWhile pyIsSpace).drop 7).takeWhile pyIsSpace != []) := by
        unfold specTitleLineB
        simp [h1, h2.1, h2.2]
      rw [show chapterLineMatch cc l =
          (match ((l.drop cc.length).dropWhile pyIsSpace).drop 7 with
          | c :: _ :: _ =>
            if pyIsSpace c then some ((l.drop cc.length).dropWhile pyIsSpace) else none
          | _ => none) by
        unfold chapterLineMatch
        rw [if_pos h1, if_pos h2]]
      rcases hd : ((l.drop cc.length).dropWhile pyIsSpace).drop 7 with _ | ⟨c, _ | ⟨d, t2⟩⟩
      · simp [hB12, hd, titleGroup]
      · have hlg : l = (cc ++ (l.drop cc.length).takeWhile pyIsSpace ++ str "CHAPTER") ++ [c] := by
          conv_lhs => rw [← List.take_append_drop cc.length l]
          rw [h1]
          conv_lhs =>
            rw [← List.takeWhile_append_dropWhile (p := pyIsSpace) (l := l.drop cc.length)]
          rw [show (l.drop cc.length).dropWhile pyIsSpace = str "CHAPTER" ++ [c] by
            conv_lhs =>
              rw [← List.take_append_drop 7 ((l.drop cc.length).dropWhile pyIsSpace)]
            rw [h2.2, hd]]
          simp
        have hcs : pyIsSpace c = false := by
          unfold noTrailWS at hl
          rw [hlg, List.getLast?_concat] at hl
          simpa using hl
        simp [hB12, hd, hcs]
      · by_cases hcsp : pyIsSpace c = true
        · simp [hB12, hd, hcsp, titleGroup]
        · simp [hB12, hd, hcsp]
    · have hB : specTitleLineB cc l = false := by
        unfold specTitleLineB
        rcases not_and_or.mp h2 with h | h
        · have : (l.drop cc.length).takeWhile pyIsSpace = [] := not_not.mp h
          simp [this]
        · simp [h]
      rw [show chapterLineMatch cc l = none by unfold chapterLineMatch; rw [if_pos h1, if_neg h2]]
      rw [hB]
      rfl
  · have hB : specTitleLineB cc l = false := by
      unfold specTitleLineB
      simp [h1]
    rw [show chapterLineMatch cc l = none by unfold chapterLineMatch; rw [if_neg h1]]
    rw [hB]
    rfl

theorem specTitleLineB_iff (cc l : List Char) :
    specTitleLineB cc l = true ↔ SpecTitleLine cc l := by
  constructor
  · intro h
    unfold specTitleLineB at h
    simp only [Bool.and_eq_true, bne_iff_ne, beq_iff_eq, ne_eq] at h
    obtain ⟨⟨⟨h1, h2⟩, h3⟩, h4⟩ := h
    refine ⟨(l.drop cc.length).takeWhile pyIsSpace, (l.drop cc.length).dropWhile pyIsSpace,
      ?_, h2, fun x hx => List.mem_takeWhile_imp hx, h3,
      ((l.drop cc.length).dropWhile pyIsSpace).drop 7 |>.takeWhile pyIsSpace,
      ((l.drop cc.length).dropWhile pyIsSpace).drop 7 |>.dropWhile pyIsSpace,
      (List.takeWhile_append_dropWhile _ _).symm, h4,
      fun x hx => List.mem_takeWhile_imp hx⟩
    conv_lhs => rw [← List.take_append_drop cc.length l]
    rw [h1, List.append_assoc, List.takeWhile_append_dropWhile]
  · rintro ⟨w, g, rfl, hw, hwsp, hg7, w2, t, hgd, hw2, hw2sp⟩
    have hge : g = str "CHAPTER" ++ g.drop 7 := by
      conv_lhs => rw [← List.take_append_drop 7 g]
      rw [hg7]
    have hgtw : g.takeWhile pyIsSpace = [] := by
      rw [hge]
      rfl
    have hgdw : g.dropWhile pyIsSpace = g := by
      conv_lhs => rw [hge]
      rw [show str "CHAPTER" ++ g.drop 7 = 'C' :: (str "HAPTER" ++ g.drop 7) from rfl]
      rw [List.dropWhile_cons_of_neg (by decide)]
      exact hge.symm
    have hdrop : (cc ++ w ++ g).drop cc.length = w ++ g := by
      rw [List.append_assoc, List.drop_left]
    unfold specTitleLineB
    rw [hdrop, List.append_assoc, List.take_left]
    rw [takeWhile_append_all g hwsp, dropWhile_append_all g hwsp, hgtw, hgdw, hg7, hgd,
      takeWhile_append_all t hw2sp]
    simp [hw, hw2]

theorem chapterNameLoop_eq (cc : List Char) :
    ∀ lines : List (List Char), chapterNameLoop cc lines =
      match ((lines.map pyStrip).filter (· ≠ [])).find? (specTitleLineB cc) with
      | some l => pyStrip (titleGroup cc l)
      | none => [] := by
  intro lines
  induction lines with
  | nil => rfl
  | cons line0 rest ih =>
    by_cases hl : pyStrip line0 = []
    · rw [show chapterNameLoop cc (line0 :: rest) = chapterNameLoop cc rest by
        simp [chapterNameLoop, hl]]
      rw [List.map_cons, List.filter_cons]
      rw [show (decide (pyStrip line0 ≠ [])) = false by simp [hl]]
      rw [if_neg (by simp)]
      exact ih
    · rw [List.map_cons, List.filter_cons]
      rw [show (decide (pyStrip line0 ≠ [])) = true by simp [hl]]
      rw [if_pos rfl]
      by_cases hB : specTitleLineB cc (pyStrip line0) = true
      · rw [List.find?_cons_of_pos _ hB]
        rw [show chapterNameLoop cc (line0 :: rest) = pyStrip (titleGroup cc (pyStrip line0)) by
          simp only [chapterNameLoop]
          rw [if_neg hl, chapterLineMatch_eq_spec cc (pyStrip line0) (noTrailWS_pyStrip line0),
            if_pos hB]]
      · rw [List.find?_cons_of_neg _ (by simpa using hB)]
        rw [show chapterNameLoop cc (line0 :: rest) = chapterNameLoop cc rest by
          simp only [chapterNameLoop]
          rw [if_neg hl, chapterLineMatch_eq_spec cc (pyStrip line0) (noTrailWS_pyStrip line0),
            if_neg hB]]
        exact ih

/-- C5: chapter-title extraction returns, from the first stripped non-empty
line matching start-of-line, the two-digit chapter string, one-or-more
whitespace, then the literal `CHAPTER` followed by whitespace and remaining
text, the captured group starting at `CHAPTER` with outer whitespace trimmed,
and the empty string when no line matches; the executable line test is
equivalent to the spec's structural description, and the cited example
returns `CHAPTER 05 - HIDES AND SKINS`. -/
theorem claim_C5 :
    (∀ (text : List Char) (chapter : Nat),
      extract_chapter_name text chapter = chapterNameSpec text chapter) ∧
    (∀ cc l, specTitleLineB cc l = true ↔ SpecTitleLine cc l) ∧
    extract_chapter_name (str "05 CHAPTER 05 - HIDES AND SKINS") 5 =
      str "CHAPTER 05 - HIDES AND SKINS" := by
  refine ⟨?_, specTitleLineB_iff, by decide⟩
  intro text chapter
  unfold extract_chapter_name chapterNameSpec
  exact chapterNameLoop_eq (pad2 chapter) (pySplitlines text)

/-! ### Character-class and scanning lemmas for the code token -/

theorem isWordChar_of_digit {c : Char} (h : c.isDigit = true) : isWordChar c = true := by
  simp [isWordChar, Char.isAlphanum, h]

theorem digitStar_not_space {c : Char} (h : digitStar c = true) : pyIsSpace c = false := by
  by_contra hs
  have hs' : pyIsSpace c = true := by simpa using hs
  simp only [pyIsSpace, Bool.or_eq_true, beq_iff_eq] at hs'
  rcases hs' with ((((rfl | rfl) | rfl) | rfl) | rfl) | rfl <;> exact absurd h (by decide)

theorem digitStar_ne_nl {c : Char} (h : digitStar c = true) : c ≠ '\n' := by
  intro he
  subst he
  exact absurd h (by decide)

theorem digitStar_notin_stripSet {c : Char} (h : digitStar c = true) :
    stripSetChars.contains c = false := by
  by_contra hs
  have hs' : stripSetChars.contains c = true := by simpa using hs
  simp only [stripSetChars, List.contains_cons, List.contains_nil,
    Bool.or_eq_true, beq_iff_eq] at hs'
  rcases hs' with rfl | rfl | rfl | rfl | rfl | h0 <;>
    first
      | exact absurd h (by decide)
      | exact absurd h0 (by simp)

theorem tokenChars {t : List Char} (h : matchCore t = some []) :
    ∀ c ∈ t, digitStar c = true ∨ c = '-' := by
  obtain ⟨t1, t2, t3, heq, _, _, _, h1d, h2d, h3d⟩ := matchCore_some h
  intro c hc
  rw [heq] at hc
  simp only [List.append_nil, List.mem_append, List.mem_cons] at hc
  rcases hc with h | h | h | h | h
  · exact Or.inl (List.all_eq_true.mp h1d c h)
  · exact Or.inr h
  · exact Or.inl (List.all_eq_true.mp h2d c h)
  · exact Or.inr h
  · exact Or.inl (List.all_eq_true.mp h3d c h)

theorem matchCore_length {t : List Char} (h : matchCore t = some []) : t.length = 16 := by
  obtain ⟨t1, t2, t3, heq, h1, h2, h3, _, _, _⟩ := matchCore_some h
  rw [heq]
  simp [h1, h2, h3]

theorem matchCore_extend {a : List Char} (ha : matchCore a = some []) (r : List Char) :
    matchCore (a ++ r) = some r := by
  obtain ⟨t1, t2, t3, heq, h1, h2, h3, h1d, h2d, h3d⟩ := matchCore_some ha
  rw [heq, show (t1 ++ '-' :: (t2 ++ '-' :: (t3 ++ []))) ++ r =
    t1 ++ '-' :: (t2 ++ '-' :: (t3 ++ r)) by simp]
  exact matchCore_of r h1 h2 h3 h1d h2d h3d

theorem matchAt_false_of_le {s : List Char} {i : Nat} (h : s.length ≤ i) :
    matchAt s i = false := by
  unfold matchAt
  rw [List.drop_of_length_le h, show matchCore [] = none from rfl]
  simp

theorem finditerAux_stop {s : List Char} : ∀ (fuel i : Nat), s.length ≤ i →
    finditerAux s fuel i = [] := by
  intro fuel
  induction fuel with
  | zero => intro i _; rfl
  | succ fuel ih =>
    intro i h
    unfold finditerAux
    rw [matchAt_false_of_le h]
    simp only [Bool.false_eq_true, if_false]
    rw [if_neg (by omega)]

theorem finditerAux_match {s : List Char} {fuel i : Nat} (h : matchAt s i = true) :
    finditerAux s (fuel + 1) i = (i, i + 16) :: finditerAux s fuel (i + 16) := by
  conv_lhs => unfold finditerAux
  rw [h]
  simp

theorem pySplitlines_single {s : List Char} (hnl : ∀ c ∈ s, c ≠ '\n') (hne : s ≠ []) :
    pySplitlines s = [s] := by
  induction s with
  | nil => exact absurd rfl hne
  | cons c cs ih =>
    unfold pySplitlines
    rw [if_neg (hnl c (List.mem_cons_self c cs))]
    cases hcs : cs with
    | nil => rfl
    | cons d ds =>
      rw [← hcs, ih (fun x hx => hnl x (List.mem_cons_of_mem _ hx)) (by rw [hcs]; simp)]

theorem mem_of_getLast?_eq {l : List Char} {c : Char} (h : l.getLast? = some c) : c ∈ l := by
  have hm : c ∈ l.getLast? := by rw [h]; rfl
  obtain ⟨hne, heq⟩ := List.mem_getLast?_eq_getLast hm
  rw [heq]
  exact List.getLast_mem hne

theorem pyLstripWS_eq_self {s : List Char} (h : ∀ c ∈ s, pyIsSpace c = false) :
    pyLstripWS s = s := by
  unfold pyLstripWS
  cases s with
  | nil => rfl
  | cons c cs =>
    exact List.dropWhile_cons_of_neg (by simp [h c (List.mem_cons_self c cs)])

theorem noTrailWS_of_all {s : List Char} (h : ∀ c ∈ s, pyIsSpace c = false) :
    noTrailWS s = true := by
  unfold noTrailWS
  cases hs : s.getLast? with
  | none => rfl
  | some c => simp [h c (mem_of_getLast?_eq hs)]

theorem pyStrip_eq_self {s : List Char} (h : ∀ c ∈ s, pyIsSpace c = false) :
    pyStrip s = s := by
  unfold pyStrip
  rw [pyLstripWS_eq_self h]
  exact pyRstripWS_eq_self (noTrailWS_of_all h)

theorem wordAt_eq_of_get? {s : List Char} {i : Nat} {c : Char} (h : s.get? i = some c) :
    wordAt s i = isWordChar c := by
  unfold wordAt
  rw [h]

theorem wordAt_eq_none_of_get? {s : List Char} {i : Nat} (h : s.get? i = none) :
    wordAt s i = false := by
  unfold wordAt
  rw [h]

/-- C6 fails on the code: a line made of two well-formed code tokens placed
literally back-to-back has no word boundary at their digit–digit junction,
so the pattern matches nowhere on it and the extractor yields zero records,
not two. -/
theorem claim_C6_cex :
    str "0101210000-00-000101210000-00-00" =
      str "0101210000-00-00" ++ str "0101210000-00-00" ∧
    matchCore (str "0101210000-00-00") = some [] ∧
    extract_codes_from_text (str "0101210000-00-000101210000-00-00") 1 = [] :=
  ⟨by decide, by decide, by decide⟩

/-- C6 amended: for a line of two back-to-back code tokens whose junction
and outer ends satisfy the pattern's word-boundary requirement (the line
starts and ends with a digit and exactly one of the two junction characters
is a word character, e.g. a wildcard against a digit), the extractor yields
exactly two records in left-to-right order, and the second record's
description is the substring after the second code — the empty string. -/
theorem claim_C6_amended (chapter : Nat) (a b : List Char)
    (ha : matchCore a = some []) (hb : matchCore b = some [])
    (hhead : headDigit a = true) (hjun : (lastWordB a != headWordB b) = true)
    (hlast : lastDigit b = true) :
    extract_codes_from_text (a ++ b) chapter =
      [CodeRecord.mk (pad2 chapter) a b, CodeRecord.mk (pad2 chapter) b []] := by
  have halen : a.length = 16 := matchCore_length ha
  have hblen : b.length = 16 := matchCore_length hb
  have haNE : a ≠ [] := by intro h; rw [h] at halen; exact absurd halen (by decide)
  have hbNE : b ≠ [] := by intro h; rw [h] at hblen; exact absurd hblen (by decide)
  have habLen : (a ++ b).length = 32 := by rw [List.length_append, halen, hblen]
  have hchar : ∀ c ∈ a ++ b, digitStar c = true ∨ c = '-' := by
    intro c hc
    rcases List.mem_append.mp hc with h | h
    · exact tokenChars ha c h
    · exact tokenChars hb c h
  have hnosp : ∀ c ∈ a ++ b, pyIsSpace c = false := by
    intro c hc
    rcases hchar c hc with h | rfl
    · exact digitStar_not_space h
    · decide
  have hnonl : ∀ c ∈ a ++ b, c ≠ '\n' := by
    intro c hc
    rcases hchar c hc with h | rfl
    · exact digitStar_ne_nl h
    · decide
  -- word-boundary bools at positions 0, 16 and 32
  obtain ⟨x, hx, hxd⟩ : ∃ x, a.head? = some x ∧ x.isDigit = true := by
    unfold headDigit at hhead
    cases hh : a.head? with
    | none => rw [hh] at hhead; exact absurd hhead (by simp)
    | some x => rw [hh] at hhead; exact ⟨x, rfl, hhead⟩
  have hget0 : (a ++ b).get? 0 = some x := by
    rw [List.get?_eq_getElem?, List.getElem?_append_left (by omega),
      ← List.get?_eq_getElem?, show a.get? 0 = a.head? by cases a <;> rfl]
    exact hx
  have hb0 : boundaryB (a ++ b) 0 = true := by
    unfold boundaryB
    rw [show prevWord (a ++ b) 0 = false from rfl,
      wordAt_eq_of_get? hget0, isWordChar_of_digit hxd]
    rfl
  have hget15 : (a ++ b).get? 15 = a.getLast? := by
    rw [List.get?_eq_getElem?, List.getElem?_append_left (by omega),
      List.getLast?_eq_getElem?, halen]
  have hget16 : (a ++ b).get? 16 = b.head? := by
    rw [List.get?_eq_getElem?, List.getElem?_append_right (by omega), halen,
      show (16 : Nat) - 16 = 0 from rfl, ← List.get?_eq_getElem?,
      show b.get? 0 = b.head? by cases b <;> rfl]
  have hwa15 : wordAt (a ++ b) 15 = lastWordB a := by
    unfold wordAt lastWordB
    rw [hget15]
  have hwa16 : wordAt (a ++ b) 16 = headWordB b := by
    unfold wordAt headWordB
    rw [hget16]
  have hb16 : boundaryB (a ++ b) 16 = true := by
    unfold boundaryB
    rw [show prevWord (a ++ b) 16 = wordAt (a ++ b) 15 from rfl, hwa15, hwa16]
    exact hjun
  obtain ⟨y, hy, hyd⟩ : ∃ y, b.getLast? = some y ∧ y.isDigit = true := by
    unfold lastDigit at hlast
    cases hh : b.getLast? with
    | none => rw [hh] at hlast; exact absurd hlast (by simp)
    | some y => rw [hh] at hlast; exact ⟨y, rfl, hlast⟩
  have hget31 : (a ++ b).get? 31 = some y := by
    rw [List.get?_eq_getElem?, List.getElem?_append_right (by omega), halen,
      show (31 : Nat) - 16 = 15 from rfl]
    rw [List.getLast?_eq_getElem?, hblen, show (16 : Nat) - 1 = 15 from rfl] at hy
    exact hy
  have hb32 : boundaryB (a ++ b) 32 = true := by
    unfold boundaryB
    rw [show prevWord (a ++ b) 32 = wordAt (a ++ b) 31 from rfl,
      wordAt_eq_of_get? hget31, isWordChar_of_digit hyd,
      wordAt_eq_none_of_get? (show (a ++ b).get? 32 = none by
        rw [List.get?_eq_getElem?]
        exact List.getElem?_eq_none (by omega))]
    rfl
  have hm0 : matchAt (a ++ b) 0 = true := by
    unfold matchAt
    rw [List.drop_zero, matchCore_extend ha b, hb0,
      show (0 : Nat) + 16 = 16 from rfl, hb16]
    rfl
  have hdrop16 : (a ++ b).drop 16 = b := by
    rw [show (16 : Nat) = a.length from halen.symm, List.drop_left]
  have hm16 : matchAt (a ++ b) 16 = true := by
    unfold matchAt
    rw [hdrop16, hb, hb16, show (16 : Nat) + 16 = 32 from rfl, hb32]
    rfl
  have hfind : finditer (a ++ b) = [(0, 16), (16, 32)] := by
    unfold finditer
    rw [habLen]
    rw [finditerAux_match hm0, show (0 : Nat) + 16 = 16 from rfl]
    rw [show (32 : Nat) = 31 + 1 from rfl, finditerAux_match hm16,
      show (16 : Nat) + 16 = 32 from rfl]
    rw [finditerAux_stop 31 32 (by omega)]
  have hbchars : ∀ c ∈ b, pyIsSpace c = false :=
    fun c hc => hnosp c (List.mem_append.mpr (Or.inr hc))
  have hstripb : pyStrip b = b := pyStrip_eq_self hbchars
  have hlstripb : pyLstrip stripSetChars b = b := by
    obtain ⟨b1, b2, b3, hbeq, hb1, _, _, hb1d, _, _⟩ := matchCore_some hb
    cases hb1c : b1 with
    | nil => rw [hb1c] at hb1; exact absurd hb1 (by decide)
    | cons z zs =>
      rw [hb1c] at hbeq hb1d
      have hz : digitStar z = true := List.all_eq_true.mp hb1d z (List.mem_cons_self z zs)
      rw [hbeq]
      unfold pyLstrip
      rw [show (z :: zs) ++ '-' :: (b2 ++ '-' :: (b3 ++ [])) =
        z :: (zs ++ '-' :: (b2 ++ '-' :: (b3 ++ []))) from rfl]
      exact List.dropWhile_cons_of_neg (show ¬(stripSetChars.contains z = true) by
        rw [digitStar_notin_stripSet hz]
        simp)
  have hr1 : matchRecord chapter (a ++ b) (0, 16) = CodeRecord.mk (pad2 chapter) a b := by
    unfold matchRecord
    simp only [show ((0, 16) : Nat × Nat).1 = 0 from rfl,
      show ((0, 16) : Nat × Nat).2 = 16 from rfl]
    rw [List.drop_zero, show (16 : Nat) - 0 = 16 from rfl]
    rw [show (16 : Nat) = a.length from halen.symm, List.take_left, List.drop_left,
      hstripb, hlstripb]
  have hr2 : matchRecord chapter (a ++ b) (16, 32) = CodeRecord.mk (pad2 chapter) b [] := by
    unfold matchRecord
    simp only [show ((16, 32) : Nat × Nat).1 = 16 from rfl,
      show ((16, 32) : Nat × Nat).2 = 32 from rfl]
    rw [show (32 : Nat) - 16 = 16 from rfl,
      List.drop_of_length_le (show (a ++ b).length ≤ 32 by omega),
      hdrop16, show (16 : Nat) = b.length from hblen.symm, List.take_length]
    rfl
  unfold extract_codes_from_text
  rw [pySplitlines_single hnonl (by simp [haNE])]
  rw [List.foldl_cons, List.foldl_nil]
  unfold extractLine
  rw [pyStrip_eq_self hnosp,
    if_neg (show ¬(a ++ b) = [] by simp [haNE]), hfind]
  rw [List.foldl_cons, List.foldl_cons, List.foldl_nil]
  unfold extractMatch
  rw [hr1, hr2]
  simp [Prod.ext_iff, Ne.symm hbNE]

/-- Witness for C6 amended: a wildcard–digit junction, two tokens truly
back-to-back, two records produced, the second with empty description. -/
theorem claim_C6_amended_witness :
    matchCore (str "0101210000-00-0*") = some [] ∧
    matchCore (str "0101210000-00-00") = some [] ∧
    headDigit (str "0101210000-00-0*") = true ∧
    (lastWordB (str "0101210000-00-0*") != headWordB (str "0101210000-00-00")) = true ∧
    lastDigit (str "0101210000-00-00") = true ∧
    extract_codes_from_text (str "0101210000-00-0*" ++ str "0101210000-00-00") 1 =
      [CodeRecord.mk (pad2 1) (str "0101210000-00-0*") (str "0101210000-00-00"),
        CodeRecord.mk (pad2 1) (str "0101210000-00-00") []] :=
  ⟨by decide, by decide, by decide, by decide, by decide,
    claim_C6_amended 1 (str "0101210000-00-0*") (str "0101210000-00-00")
      (by decide) (by decide) (by decide) (by decide) (by decide)⟩

/-! ### CSV round trip -/

theorem not_needsQuote {f : List Char} (h : needsQuote f = false) :
    ∀ c ∈ f, c ≠ ',' ∧ c ≠ '"' ∧ c ≠ '\r' ∧ c ≠ '\n' := by
  intro c hc
  unfold needsQuote at h
  rw [List.any_eq_false] at h
  have hthis := h c hc
  simp only [Bool.or_eq_true, beq_iff_eq, not_or] at hthis
  obtain ⟨⟨⟨h1, h2⟩, h3⟩, h4⟩ := hthis
  exact ⟨h1, h2, h3, h4⟩

theorem csv_fold_escape (f : List Char) : ∀ (rows : List (List (List Char)))
    (cur : List (List Char)) (g : List Char),
    (escapeQuotes f).foldl csvStep ⟨rows, cur, g, .quoted⟩ = ⟨rows, cur, g ++ f, .quoted⟩ := by
  induction f with
  | nil => intro rows cur g; simp [escapeQuotes]
  | cons c cs ih =>
    intro rows cur g
    rw [show escapeQuotes (c :: cs) =
      (if c = '"' then ['"', '"'] else [c]) ++ escapeQuotes cs from rfl]
    by_cases hc : c = '"'
    · subst hc
      rw [if_pos rfl]
      rw [show (['"', '"'] ++ escapeQuotes cs).foldl csvStep
          (⟨rows, cur, g, .quoted⟩ : CsvState) =
        (escapeQuotes cs).foldl csvStep
          (csvStep (csvStep ⟨rows, cur, g, .quoted⟩ '"') '"') from rfl]
      rw [show csvStep (⟨rows, cur, g, CsvMode.quoted⟩ : CsvState) '"' =
        ⟨rows, cur, g, .quoteEnd⟩ from rfl]
      rw [show csvStep (⟨rows, cur, g, CsvMode.quoteEnd⟩ : CsvState) '"' =
        ⟨rows, cur, g ++ ['"'], .quoted⟩ from rfl]
      rw [ih rows cur (g ++ ['"'])]
      simp
    · rw [if_neg hc]
      rw [show ([c] ++ escapeQuotes cs).foldl csvStep (⟨rows, cur, g, .quoted⟩ : CsvState) =
        (escapeQuotes cs).foldl csvStep (csvStep ⟨rows, cur, g, .quoted⟩ c) from rfl]
      rw [show csvStep (⟨rows, cur, g, CsvMode.quoted⟩ : CsvState) c =
        ⟨rows, cur, g ++ [c], .quoted⟩ by simp only [csvStep]; rw [if_neg hc]]
      rw [ih rows cur (g ++ [c])]
      simp

theorem csv_fold_unquoted (cs : List Char)
    (hf : ∀ c ∈ cs, c ≠ ',' ∧ c ≠ '"' ∧ c ≠ '\r' ∧ c ≠ '\n') :
    ∀ (rows : List (List (List Char))) (cur : List (List Char)) (g : List Char),
    cs.foldl csvStep ⟨rows, cur, g, .unquoted⟩ = ⟨rows, cur, g ++ cs, .unquoted⟩ := by
  induction cs with
  | nil => intro rows cur g; simp
  | cons c cs ih =>
    intro rows cur g
    have hc := hf c (List.mem_cons_self c cs)
    rw [List.foldl_cons]
    rw [show csvStep (⟨rows, cur, g, CsvMode.unquoted⟩ : CsvState) c =
      ⟨rows, cur, g ++ [c], .unquoted⟩ by
      simp only [csvStep]
      rw [if_neg hc.1, if_neg hc.2.2.1, if_neg hc.2.2.2]]
    rw [ih (fun x hx => hf x (List.mem_cons_of_mem _ hx)) rows cur (g ++ [c])]
    simp

theorem csv_fold_field (f : List Char) (rows : List (List (List Char)))
    (cur : List (List Char)) (m : CsvMode) (hm : m = .rowStart ∨ m = .fieldStart) :
    (encodeField f).foldl csvStep ⟨rows, cur, [], m⟩ = ⟨rows, cur, f, fieldEndMode m f⟩ := by
  unfold encodeField fieldEndMode
  by_cases hq : needsQuote f = true
  · rw [if_pos hq, if_pos hq]
    rw [List.foldl_cons]
    rw [show csvStep (⟨rows, cur, [], m⟩ : CsvState) '"' = ⟨rows, cur, [], .quoted⟩ by
      rcases hm with rfl | rfl <;> rfl]
    rw [List.foldl_append, csv_fold_escape f rows cur []]
    rw [show (['"'] : List Char).foldl csvStep (⟨rows, cur, [] ++ f, .quoted⟩ : CsvState) =
      ⟨rows, cur, [] ++ f, .quoteEnd⟩ from rfl]
    simp
  · have hq' : needsQuote f = false := by simpa using hq
    rw [if_neg hq, if_neg hq]
    cases f with
    | nil => simp
    | cons c cs =>
      have hc := not_needsQuote hq' c (List.mem_cons_self c cs)
      rw [List.foldl_cons]
      rw [show csvStep (⟨rows, cur, [], m⟩ : CsvState) c = ⟨rows, cur, [c], .unquoted⟩ by
        rcases hm with rfl | rfl <;>
          · simp only [csvStep, csvStartChar]
            rw [if_neg hc.2.1, if_neg hc.1, if_neg hc.2.2.1, if_neg hc.2.2.2]
            simp]
      rw [csv_fold_unquoted cs
        (fun x hx => not_needsQuote hq' x (List.mem_cons_of_mem _ hx)) rows cur [c]]
      simp

theorem csvStep_comma {rows : List (List (List Char))} {cur : List (List Char)}
    {field : List Char} {m : CsvMode}
    (hm : m = .rowStart ∨ m = .fieldStart ∨ m = .unquoted ∨ m = .quoteEnd) :
    csvStep ⟨rows, cur, field, m⟩ ',' = ⟨rows, cur ++ [field], [], .fieldStart⟩ := by
  rcases hm with rfl | rfl | rfl | rfl <;> rfl

theorem csvStep_crlf {rows : List (List (List Char))} {cur : List (List Char)}
    {field : List Char} {m : CsvMode}
    (hm : m = .fieldStart ∨ m = .unquoted ∨ m = .quoteEnd) :
    (['\r', '\n'] : List Char).foldl csvStep ⟨rows, cur, field, m⟩ =
      ⟨rows ++ [cur ++ [field]], [], [], .rowStart⟩ := by
  rcases hm with rfl | rfl | rfl <;> rfl

theorem csv_fold_fields (fs : List (List Char)) :
    ∀ (hfs : fs ≠ []) (rows : List (List (List Char))) (cur : List (List Char)),
    (joinComma (fs.map encodeField) ++ ['\r', '\n']).foldl csvStep
      ⟨rows, cur, [], .fieldStart⟩ = ⟨rows ++ [cur ++ fs], [], [], .rowStart⟩ := by
  induction fs with
  | nil => intro hfs; exact absurd rfl hfs
  | cons f rest ih =>
    intro _ rows cur
    cases rest with
    | nil =>
      rw [show joinComma ([f].map encodeField) = encodeField f from rfl]
      rw [List.foldl_append, csv_fold_field f rows cur _ (Or.inr rfl)]
      have hmode : fieldEndMode CsvMode.fieldStart f = .fieldStart ∨
          fieldEndMode CsvMode.fieldStart f = .unquoted ∨
          fieldEndMode CsvMode.fieldStart f = .quoteEnd := by
        unfold fieldEndMode
        split_ifs <;> simp
      rw [csvStep_crlf hmode]
    | cons g gs =>
      rw [show joinComma ((f :: g :: gs).map encodeField) =
        encodeField f ++ ',' :: joinComma ((g :: gs).map encodeField) from rfl]
      rw [List.append_assoc, List.cons_append, List.foldl_append,
        csv_fold_field f rows cur _ (Or.inr rfl), List.foldl_cons]
      have hmode : fieldEndMode CsvMode.fieldStart f = .rowStart ∨
          fieldEndMode CsvMode.fieldStart f = .fieldStart ∨
          fieldEndMode CsvMode.fieldStart f = .unquoted ∨
          fieldEndMode CsvMode.fieldStart f = .quoteEnd := by
        unfold fieldEndMode
        split_ifs <;> simp
      rw [csvStep_comma hmode]
      rw [ih (by simp) rows (cur ++ [f])]
      simp

theorem csv_fold_row (fs : List (List Char)) (hfs : fs ≠ []) (hfs2 : fs ≠ [[]])
    (rows : List (List (List Char))) :
    (encodeRow fs).foldl csvStep ⟨rows, [], [], .rowStart⟩ = ⟨rows ++ [fs], [], [], .rowStart⟩ := by
  unfold encodeRow
  cases fs with
  | nil => exact absurd rfl hfs
  | cons f rest =>
    cases rest with
    | nil =>
      have hfne : f ≠ [] := by
        intro h
        rw [h] at hfs2
        exact hfs2 rfl
      rw [show joinComma ([f].map encodeField) = encodeField f from rfl]
      rw [List.foldl_append, csv_fold_field f rows [] _ (Or.inl rfl)]
      have hmode : fieldEndMode CsvMode.rowStart f = .fieldStart ∨
          fieldEndMode CsvMode.rowStart f = .unquoted ∨
          fieldEndMode CsvMode.rowStart f = .quoteEnd := by
        unfold fieldEndMode
        by_cases h1 : needsQuote f = true
        · rw [if_pos h1]
          simp
        · rw [if_neg h1, if_neg hfne]
          simp
      rw [csvStep_crlf hmode]
      simp
    | cons g gs =>
      rw [show joinComma ((f :: g :: gs).map encodeField) =
        encodeField f ++ ',' :: joinComma ((g :: gs).map encodeField) from rfl]
      rw [List.append_assoc, List.cons_append, List.foldl_append,
        csv_fold_field f rows [] _ (Or.inl rfl), List.foldl_cons]
      have hmode : fieldEndMode CsvMode.rowStart f = .rowStart ∨
          fieldEndMode CsvMode.rowStart f = .fieldStart ∨
          fieldEndMode CsvMode.rowStart f = .unquoted ∨
          fieldEndMode CsvMode.rowStart f = .quoteEnd := by
        unfold fieldEndMode
        split_ifs <;> simp
      rw [csvStep_comma hmode]
      rw [csv_fold_fields (g :: gs) (by simp) rows ([] ++ [f])]
      simp

theorem csv_fold_table (rowsData : List (List (List Char)))
    (h : ∀ fs ∈ rowsData, fs ≠ [] ∧ fs ≠ [[]]) :
    ∀ rows : List (List (List Char)),
    (writeTable rowsData).foldl csvStep ⟨rows, [], [], .rowStart⟩ =
      ⟨rows ++ rowsData, [], [], .rowStart⟩ := by
  induction rowsData with
  | nil => intro rows; simp [writeTable]
  | cons r rs ih =>
    intro rows
    rw [show writeTable (r :: rs) = encodeRow r ++ writeTable rs from by
      unfold writeTable
      simp]
    rw [List.foldl_append,
      csv_fold_row r (h r (List.mem_cons_self r rs)).1 (h r (List.mem_cons_self r rs)).2 rows,
      ih (fun fs hfs => h fs (List.mem_cons_of_mem _ hfs)) (rows ++ [r])]
    simp

theorem parse_writeTable (rowsData : List (List (List Char)))
    (h : ∀ fs ∈ rowsData, fs ≠ [] ∧ fs ≠ [[]]) :
    parseCSV (writeTable rowsData) = rowsData := by
  unfold parseCSV
  rw [csv_fold_table rowsData h []]
  rfl

/-- C8: writing a table (header row plus one row per record, with minimal
quoting and doubled embedded quotes) and parsing the produced text back
yields exactly the header row followed by one row per record with fields
identical to the input, for both output tables and for arbitrary field
contents; reading it as a header-aware table yields exactly the N records. -/
theorem claim_C8 :
    (∀ recs : List CodeRecord,
      parseCSV (writeCodesCSV recs) = codesHeader :: recs.map codeFields ∧
      readTable (writeCodesCSV recs) = recs.map codeFields) ∧
    (∀ recs : List ChapterRec,
      parseCSV (writeChaptersCSV recs) = chaptersHeader :: recs.map chapterFields ∧
      readTable (writeChaptersCSV recs) = recs.map chapterFields) := by
  constructor
  · intro recs
    have hp : parseCSV (writeCodesCSV recs) = codesHeader :: recs.map codeFields := by
      unfold writeCodesCSV
      refine parse_writeTable _ ?_
      intro fs hfs
      rcases List.mem_cons.mp hfs with rfl | hfs
      · exact ⟨by simp [codesHeader], by simp [codesHeader]⟩
      · obtain ⟨r, _, rfl⟩ := List.mem_map.mp hfs
        exact ⟨by simp [codeFields], by simp [codeFields]⟩
    refine ⟨hp, ?_⟩
    unfold readTable
    rw [hp]
  · intro recs
    have hp : parseCSV (writeChaptersCSV recs) = chaptersHeader :: recs.map chapterFields := by
      unfold writeChaptersCSV
      refine parse_writeTable _ ?_
      intro fs hfs
      rcases List.mem_cons.mp hfs with rfl | hfs
      · exact ⟨by simp [chaptersHeader], by simp [chaptersHeader]⟩
      · obtain ⟨r, _, rfl⟩ := List.mem_map.mp hfs
        exact ⟨by simp [chapterFields], by simp [chapterFields]⟩
    refine ⟨hp, ?_⟩
    unfold readTable
    rw [hp]
